import Mathlib

/-!
Shallow embedding of the discount and pricing resolution engine of a
point-of-sale backend: the promotion calculator (`app/routers/promotions.py`),
the price-rule and volume-tier calculator (`app/routers/price_rules.py`),
the mix-and-match calculator (`app/routers/mix_match.py`) and the happy-hour
calculator (`app/routers/happy_hour.py`).

Conventions of the embedding:
* Python floats are modelled as exact rationals (`ℚ`); the display-only
  `round(x, 2)` calls of the routers are not modelled, every value is kept
  exact.
* Python ints are `Int`; Python `//` is `Int.fdiv` (floor division).
* Python dicts keyed by product id are association lists `List (Int × α)`
  with dict semantics: a write to a fresh key appends, a write to a present
  key updates in place (`dictInsert`), reads scan from the front.
* Python truthiness on optional fields is modelled by the `truthy*`
  helpers: `None`, `0`, `0.0`, `""` and `[]` are falsy.
* Database rows reached through a SQLAlchemy query are passed in as lists:
  a query filter or ordering guaranteed by SQL becomes a hypothesis on the
  list, a filter done in Python is part of the definition.
* Timestamps (`datetime`) are abstract instants `Int`; times of day are
  minutes after midnight (`Nat`), whose order agrees with the order of
  Python `time` objects produced by `parse_time`.
-/

/-- Python truthiness of an optional int: `None` and `0` are falsy. -/
def truthyInt : Option Int → Bool
  | none => false
  | some n => n != 0

/-- Python truthiness of an optional float: `None` and `0.0` are falsy. -/
def truthyRat : Option ℚ → Bool
  | none => false
  | some q => q != 0

/-- Python truthiness of an optional string: `None` and the empty string are falsy. -/
def truthyStr : Option String → Bool
  | none => false
  | some s => s != ""

/-- Python truthiness of an optional list: `None` and the empty list are falsy. -/
def truthyList : Option (List Int) → Bool
  | none => false
  | some l => l != []

/-- Python dict write `d[k] = v`: update the entry for `k` in place, or
append a fresh entry at the end. A dict comprehension folds this over the
input, so the first occurrence of a key fixes its position and the last
fixes its value. -/
def dictInsert (k : Int) (v : α) : List (Int × α) → List (Int × α)
  | [] => [(k, v)]
  | e :: rest => if k = e.1 then (k, v) :: rest else e :: dictInsert k v rest

/-- Python dict read `d.get(k)`. -/
def dictGet? (k : Int) : List (Int × α) → Option α
  | [] => none
  | e :: rest => if k = e.1 then some e.2 else dictGet? k rest

def dictKeys (d : List (Int × α)) : List Int := d.map Prod.fst

/-- Characters of a string lowercased, as Python `s.lower()`. -/
def lcChars (s : String) : List Char := s.toList.map Char.toLower

def charsStartWith : List Char → List Char → Bool
  | [], _ => true
  | _ :: _, [] => false
  | a :: as, b :: bs => a == b && charsStartWith as bs

def charsHasSub (needle : List Char) : List Char → Bool
  | [] => needle.isEmpty
  | b :: bs => charsStartWith needle (b :: bs) || charsHasSub needle bs

/-- Python `needle.lower() in hay.lower()`. -/
def strContainsLower (hay needle : String) : Bool :=
  charsHasSub (lcChars needle) (lcChars hay)

/-- Row of the `products` table, restricted to the columns the pricing
code reads. -/
structure ProductRec where
  id : Int
  category_id : Option Int
  brand : Option String
  price : ℚ
deriving DecidableEq

/-- Lookup `db.query(Product).filter(Product.id == pid).first()`. -/
def findProduct (ps : List ProductRec) (pid : Int) : Option ProductRec :=
  ps.find? (fun p => p.id == pid)

namespace Promo

/-- Cart entry of `POST /promotions/calculate`. -/
structure Item where
  product_id : Int
  quantity : Int
  unit_price : ℚ
deriving DecidableEq

/-- Row of the `promotions` table, restricted to the columns
`calculate_discounts` reads. -/
structure Promotion where
  id : Int
  name : String
  promo_type : String
  discount_value : ℚ
  scope : String
  category_id : Option Int
  product_id : Option Int
  min_purchase : ℚ
  max_uses : Option Int
  current_uses : Int
deriving DecidableEq

def subtotalOf (items : List Item) : ℚ :=
  (items.map (fun i => i.unit_price * (i.quantity : ℚ))).sum

/-- The discount one promotion puts on one amount: `percentage` scales it,
`fixed_amount` caps the configured value at it, any other type (such as
`buy_x_get_y`) leaves the running `discount = 0.0` untouched. -/
def itemDiscount (p : Promotion) (amount : ℚ) : ℚ :=
  if p.promo_type = "percentage" then amount * (p.discount_value / 100)
  else if p.promo_type = "fixed_amount" then min p.discount_value amount
  else 0

/-- The `continue` guards of the promotion loop: minimum purchase and the
usage cap (`if promo.max_uses and promo.current_uses >= promo.max_uses`,
where a cap of `0` is falsy). -/
def promoSkipped (subtotal : ℚ) (p : Promotion) : Bool :=
  decide (subtotal < p.min_purchase) ||
    (truthyInt p.max_uses && decide (p.max_uses.getD 0 ≤ p.current_uses))

/-- The discount one promotion earns on the cart, by scope. -/
def promoDiscount (products : List ProductRec) (items : List Item)
    (subtotal : ℚ) (p : Promotion) : ℚ :=
  if p.scope = "all" then itemDiscount p subtotal
  else if p.scope = "category" then
    (items.map (fun item =>
      match findProduct products item.product_id with
      | some prod =>
          if prod.category_id = p.category_id then
            itemDiscount p (item.unit_price * (item.quantity : ℚ))
          else 0
      | none => 0)).sum
  else if p.scope = "product" then
    (items.map (fun item =>
      if some item.product_id = p.product_id then
        itemDiscount p (item.unit_price * (item.quantity : ℚ))
      else 0)).sum
  else 0

structure AppliedPromo where
  promo_id : Int
  name : String
  discount : ℚ
deriving DecidableEq

structure CalcResult where
  subtotal : ℚ
  total_discount : ℚ
  final_subtotal : ℚ
  applied_promotions : List AppliedPromo
deriving DecidableEq

def promoStep (products : List ProductRec) (items : List Item) (subtotal : ℚ)
    (acc : ℚ × List AppliedPromo) (p : Promotion) : ℚ × List AppliedPromo :=
  if promoSkipped subtotal p then acc
  else
    let d := promoDiscount products items subtotal p
    if 0 < d then (acc.1 + d, acc.2 ++ [⟨p.id, p.name, d⟩]) else acc

/-- Embedding of `POST /promotions/calculate`: `promotions` stands for the
query result (active promotions within their date window). The reported
`final_subtotal` is `subtotal - total_discount`, with no clamping. -/
def calculate_discounts (products : List ProductRec) (promotions : List Promotion)
    (items : List Item) : CalcResult :=
  let subtotal := subtotalOf items
  let r := promotions.foldl (promoStep products items subtotal) (0, [])
  ⟨subtotal, r.1, subtotal - r.1, r.2⟩

/-- Request body of `POST /promotions` as far as the validation reads it. -/
structure PromotionCreate where
  promo_type : String
  buy_quantity : Option Int
  get_quantity : Option Int
  scope : String
  category_id : Option Int
  product_id : Option Int
deriving DecidableEq

inductive CreateOutcome
  | rejected (detail : String)
  | created
deriving DecidableEq

/-- Validation of `create_promotion` (the HTTP 400 guards before the row is
written). -/
def create_promotion (p : PromotionCreate) : CreateOutcome :=
  if p.scope = "category" && !(truthyInt p.category_id) then
    .rejected "Category ID required for category scope"
  else if p.scope = "product" && !(truthyInt p.product_id) then
    .rejected "Product ID required for product scope"
  else if p.promo_type = "buy_x_get_y" &&
      (!(truthyInt p.buy_quantity) || !(truthyInt p.get_quantity)) then
    .rejected "Buy and get quantities required for BOGO deals"
  else .created

end Promo

namespace PR

/-- One entry of the JSON tier list of a volume discount; `tier.get` with
default `0` is modelled by optional fields read through `getD`. -/
structure Tier where
  min_qty : Option Int
  discount_percent : Option ℚ
deriving DecidableEq

structure VolumeDiscount where
  id : Int
  name : String
  tiers : List Tier
deriving DecidableEq

/-- Row of the `price_rules` table, restricted to the columns
`calculate_price` reads. -/
structure PriceRule where
  id : Int
  name : String
  min_quantity : Option Int
  customer_tier : Option String
  start_date : Option Int
  end_date : Option Int
  discount_type : String
  discount_value : ℚ
  priority : Int
  stackable : Bool
deriving DecidableEq

/-- One entry of `discounts_applied` (the display string of the discount is
not modelled, only the monetary `savings`). -/
structure AppliedDisc where
  name : String
  savings : ℚ
deriving DecidableEq

def tierKey (t : Tier) : Int := t.min_qty.getD 0

/-- Descending comparison on `min_qty`, the sort key of the tier loop. -/
def tierGE (a b : Tier) : Prop := tierKey b ≤ tierKey a

instance : DecidableRel tierGE := fun a b =>
  inferInstanceAs (Decidable (tierKey b ≤ tierKey a))

instance : IsTotal Tier tierGE :=
  ⟨fun a b => (le_total (tierKey b) (tierKey a)).imp id id⟩

instance : IsTrans Tier tierGE :=
  ⟨fun _ _ _ hab hbc => le_trans hbc hab⟩

/-- Python `sorted(tiers, key=lambda x: x.get("min_qty", 0), reverse=True)`:
a stable sort descending by `min_qty`. -/
def sortTiersDesc (ts : List Tier) : List Tier :=
  ts.insertionSort tierGE

/-- The tier-selection loop: first tier of the descending list whose
`min_qty` the requested quantity meets. -/
def selectTier (ts : List Tier) (quantity : Int) : Option Tier :=
  (sortTiersDesc ts).find? (fun t => decide (tierKey t ≤ quantity))

/-- One iteration of the volume-discount loop: the selected tier's percent
comes off the running `final_price`. -/
def vdStep (quantity : Int) (acc : ℚ × List AppliedDisc) (vd : VolumeDiscount) :
    ℚ × List AppliedDisc :=
  match selectTier vd.tiers quantity with
  | some t =>
      let amt := acc.1 * (t.discount_percent.getD 0 / 100)
      (acc.1 - amt, acc.2 ++ [⟨vd.name, amt⟩])
  | none => acc

/-- The `continue` guards of the price-rule loop: minimum quantity
(`if rule.min_quantity and quantity < rule.min_quantity`, cap `0` falsy),
customer tier (empty string falsy) and the date window (a `datetime` is
always truthy). -/
def ruleSkipped (now : Int) (quantity : Int) (ctier : Option String)
    (r : PriceRule) : Bool :=
  (truthyInt r.min_quantity && decide (quantity < r.min_quantity.getD 0)) ||
  (truthyStr r.customer_tier && decide (r.customer_tier ≠ ctier)) ||
  (r.start_date.isSome && decide (now < r.start_date.getD 0)) ||
  (r.end_date.isSome && decide (r.end_date.getD 0 < now))

/-- The price-rule loop of `calculate_price`: each rule's discount comes off
the running price, and a non-stackable rule breaks the loop after applying. -/
def applyRules (now : Int) (quantity : Int) (ctier : Option String) :
    ℚ → List PriceRule → ℚ × List AppliedDisc
  | price, [] => (price, [])
  | price, r :: rs =>
    if ruleSkipped now quantity ctier r then applyRules now quantity ctier price rs
    else
      let d := if r.discount_type = "percent" then price * (r.discount_value / 100)
               else if r.discount_type = "fixed" then r.discount_value
               else 0
      if r.stackable then
        let rest := applyRules now quantity ctier (price - d) rs
        (rest.1, ⟨r.name, d⟩ :: rest.2)
      else (price - d, [⟨r.name, d⟩])

structure PriceResult where
  base_total : ℚ
  final_price : ℚ
  total_savings : ℚ
  discounts_applied : List AppliedDisc
deriving DecidableEq

/-- Embedding of `POST /price-rules/calculate`. `volume_discounts` and
`rules` stand for the query results: active rows matching the product or
its category, `rules` ordered by priority descending. The reported
`final_price` is clamped at zero; `total_savings` is not. -/
def calculate_price (now : Int) (base_price : ℚ) (quantity : Int)
    (ctier : Option String) (volume_discounts : List VolumeDiscount)
    (rules : List PriceRule) : PriceResult :=
  let base_total := base_price * (quantity : ℚ)
  let v := volume_discounts.foldl (vdStep quantity) (base_total, [])
  let r := applyRules now quantity ctier v.1 rules
  ⟨base_total, max 0 r.1, base_total - r.1, v.2 ++ r.2⟩

end PR

namespace MM

/-- Row of the `mix_match_deals` table, restricted to the columns the
calculator reads. -/
structure Deal where
  id : Int
  name : String
  category_ids : Option (List Int)
  product_ids : Option (List Int)
  brand_filter : Option String
  min_price : Option ℚ
  max_price : Option ℚ
  quantity_required : Int
  discount_type : String
  discount_value : ℚ
  stackable : Bool
  max_applications : Option Int
  start_date : Option Int
  end_date : Option Int
  is_active : Bool
  priority : Int
  created_at : Int
deriving DecidableEq

/-- Cart entry of `POST /mix-match/calculate`. -/
structure Item where
  product_id : Int
  quantity : Int
  unit_price : ℚ
deriving DecidableEq

/-- Date-window check `is_deal_active` (a `datetime` is always truthy). -/
def is_deal_active (now : Int) (d : Deal) : Bool :=
  if d.start_date.isSome && decide (now < d.start_date.getD 0) then false
  else if d.end_date.isSome && decide (d.end_date.getD 0 < now) then false
  else d.is_active

/-- Python `product.category_id in deal.category_ids` for an optional
column: a NULL category is in no list of ints. -/
def catMember (p : ProductRec) (ids : List Int) : Bool :=
  match p.category_id with
  | some c => ids.contains c
  | none => false

/-- Scope predicate `product_qualifies`: empty lists, empty strings and
zero prices are falsy, so such filters are not checked. -/
def product_qualifies (p : ProductRec) (d : Deal) : Bool :=
  if truthyList d.category_ids && !(catMember p (d.category_ids.getD [])) then false
  else if truthyList d.product_ids && !((d.product_ids.getD []).contains p.id) then false
  else if truthyStr d.brand_filter && truthyStr p.brand &&
      !(strContainsLower (p.brand.getD "") (d.brand_filter.getD "")) then false
  else if truthyRat d.min_price && decide (p.price < d.min_price.getD 0) then false
  else if truthyRat d.max_price && decide (d.max_price.getD 0 < p.price) then false
  else true

/-- The shared pool `item_usage`: product id to remaining quantity. -/
abbrev Pool := List (Int × Int)

/-- One entry of `qualifying_items`: `(product_id, remaining_qty, price)`. -/
structure QEntry where
  pid : Int
  rem : Int
  price : ℚ
deriving DecidableEq

/-- The `qualifying_items` gathering loop: pool entries with positive
remaining quantity whose product resolves and qualifies. A product id
missing from `item_prices` cannot occur (both dicts are built from the same
items), so the `getD 0` default is never taken. -/
def qualifyingItems (products : List ProductRec) (prices : List (Int × ℚ))
    (d : Deal) (pool : Pool) : List QEntry :=
  pool.filterMap (fun (e : Int × Int) =>
    if e.2 ≤ 0 then none
    else match findProduct products e.1 with
      | some p =>
          if product_qualifies p d then
            some (QEntry.mk e.1 e.2 ((dictGet? e.1 prices).getD 0))
          else none
      | none => none)

/-- `timesApplicable`: floor quotient, clamped by `max_applications` only
when that cap is truthy (`if deal.max_applications:`, so a cap of `0` is
ignored). -/
def mmTimes (d : Deal) (total_q : Int) : Int :=
  let t := Int.fdiv total_q d.quantity_required
  if truthyInt d.max_applications then min t (d.max_applications.getD 0) else t

/-- One processed entry of the consumption loop: the snapshot remaining
quantity, the unit price, and the `take = min(remaining, still needed)`. -/
structure Consumption where
  pid : Int
  rem : Int
  price : ℚ
  take : Int
deriving DecidableEq

/-- The consumption loop over the qualifying lines in stable input order;
it stops once nothing more is needed. -/
def consume (needed : Int) : List QEntry → List Consumption
  | [] => []
  | q :: rest =>
    if needed ≤ 0 then []
    else
      let take := min q.rem needed
      ⟨q.pid, q.rem, q.price, take⟩ :: consume (needed - take) rest

def usedOf (cs : List Consumption) : Int := (cs.map Consumption.take).sum

/-- Sum of `items_for_discount` (each consumed unit contributes its
original unit price). -/
def consumedSubtotal (cs : List Consumption) : ℚ :=
  (cs.map (fun c => c.price * (c.take : ℚ))).sum

/-- The discount of one applied deal. `len(items_for_discount)` equals the
total quantity used. -/
def dealDiscount (d : Deal) (used : Int) (sub : ℚ) (t : Int) : ℚ :=
  if d.discount_type = "percentage" then sub * (d.discount_value / 100)
  else if d.discount_type = "fixed_per_item" then d.discount_value * (used : ℚ)
  else if d.discount_type = "fixed_total" then d.discount_value * (t : ℚ)
  else 0

/-- One entry of `applicable_deals` (`qualifying_products`, a Python set,
is not modelled). -/
structure Applied where
  deal_id : Int
  deal_name : String
  quantity_used : Int
  discount_amount : ℚ
deriving DecidableEq

structure St where
  pool : Pool
  applied : List Applied
  total : ℚ
deriving DecidableEq

/-- Pool update of a non-stackable deal: each processed line is written back
as its snapshot remaining quantity minus its take. -/
def writeTakes (pool : Pool) (cs : List Consumption) : Pool :=
  cs.foldl (fun pl c => dictInsert c.pid (c.rem - c.take) pl) pool

/-- One iteration of the deal loop of `calculate_discounts`. -/
def dealStep (products : List ProductRec) (prices : List (Int × ℚ))
    (st : St) (d : Deal) : St :=
  let qs := qualifyingItems products prices d st.pool
  if qs.isEmpty then st
  else
    let t := mmTimes d ((qs.map QEntry.rem).sum)
    if t ≤ 0 then st
    else
      let cs := consume (d.quantity_required * t) qs
      let pool₂ := if d.stackable then st.pool else writeTakes st.pool cs
      let disc := dealDiscount d (usedOf cs) (consumedSubtotal cs) t
      if 0 < disc then
        ⟨pool₂, st.applied ++ [⟨d.id, d.name, usedOf cs, disc⟩], st.total + disc⟩
      else ⟨pool₂, st.applied, st.total⟩

structure CalcResponse where
  applicable_deals : List Applied
  total_discount : ℚ
deriving DecidableEq

/-- Python dict comprehension over the cart items, keyed by product id. -/
def mkItemDict (f : Item → α) (items : List Item) : List (Int × α) :=
  items.foldl (fun dct it => dictInsert it.product_id (f it) dct) []

/-- Embedding of `POST /mix-match/calculate`: `deals` stands for the query
result (active deals ordered by priority descending); the date-window
filter is re-applied in Python. No cart validation is performed. -/
def calculate_discounts (products : List ProductRec) (now : Int)
    (deals : List Deal) (items : List Item) : CalcResponse :=
  let active := deals.filter (is_deal_active now)
  let usage := mkItemDict Item.quantity items
  let prices := mkItemDict Item.unit_price items
  let fin := active.foldl (dealStep products prices) ⟨usage, [], 0⟩
  ⟨fin.applied, fin.total⟩

/-! Observers of the deal loop, re-tracing intermediate values `dealStep`
computes but does not return: the consumption events of one deal, the pool
after one deal, and the units one resolution consumes per product id
through non-stackable deals. -/

/-- The consumption events one deal causes against a given pool (empty
when the deal is skipped). -/
def dealTakes (products : List ProductRec) (prices : List (Int × ℚ))
    (pool : Pool) (d : Deal) : List Consumption :=
  let qs := qualifyingItems products prices d pool
  if qs.isEmpty then []
  else
    let t := mmTimes d ((qs.map QEntry.rem).sum)
    if t ≤ 0 then [] else consume (d.quantity_required * t) qs

/-- The pool after one deal of the loop. -/
def poolStep (products : List ProductRec) (prices : List (Int × ℚ))
    (pool : Pool) (d : Deal) : Pool :=
  if d.stackable then pool else writeTakes pool (dealTakes products prices pool d)

/-- Units a consumption list takes from one product id. -/
def takeAt (cs : List Consumption) (x : Int) : Int :=
  ((cs.filter (fun c => decide (c.pid = x))).map Consumption.take).sum

/-- Units consumed from product id `x` by the non-stackable deals of a run. -/
def runConsumedNS (products : List ProductRec) (prices : List (Int × ℚ))
    (x : Int) : Pool → List Deal → Int
  | _, [] => 0
  | pool, d :: ds =>
      (if d.stackable then 0 else takeAt (dealTakes products prices pool d) x) +
      runConsumedNS products prices x (poolStep products prices pool d) ds

/-- The amount one deal adds to `total_discount` against a given pool
(zero when the deal is skipped or its discount is not positive). -/
def dealContribution (products : List ProductRec) (prices : List (Int × ℚ))
    (pool : Pool) (d : Deal) : ℚ :=
  let qs := qualifyingItems products prices d pool
  if qs.isEmpty then 0
  else
    let t := mmTimes d ((qs.map QEntry.rem).sum)
    if t ≤ 0 then 0
    else
      let cs := consume (d.quantity_required * t) qs
      let disc := dealDiscount d (usedOf cs) (consumedSubtotal cs) t
      if 0 < disc then disc else 0

end MM

namespace HH

/-- Row of the `happy_hours` table, restricted to the columns the
calculator reads. `start_time`/`end_time` are minutes after midnight, the
order-faithful image of `parse_time("HH:MM")`. -/
structure HappyHour where
  id : Int
  name : String
  start_time : Nat
  end_time : Nat
  monday : Bool
  tuesday : Bool
  wednesday : Bool
  thursday : Bool
  friday : Bool
  saturday : Bool
  sunday : Bool
  discount_type : String
  discount_value : ℚ
  applies_to : String
  category_id : Option Int
  product_ids : Option (List Int)
  exclude_case_pricing : Bool
deriving DecidableEq

/-- Weekday gate `is_day_active` (weekday 0 is Monday, as Python). -/
def is_day_active (hh : HappyHour) (weekday : Nat) : Bool :=
  match weekday with
  | 0 => hh.monday
  | 1 => hh.tuesday
  | 2 => hh.wednesday
  | 3 => hh.thursday
  | 4 => hh.friday
  | 5 => hh.saturday
  | 6 => hh.sunday
  | _ => false

/-- Time-of-day gate shared by `get_active_happy_hours` and
`calculate_happy_hour_discount`: inside `[start, end]` when the window does
not wrap, outside `(end, start)` when it wraps past midnight. -/
def timeWindowOk (startT endT t : Nat) : Bool :=
  if startT ≤ endT then decide (startT ≤ t) && decide (t ≤ endT)
  else decide (startT ≤ t) || decide (t ≤ endT)

/-- The `continue` guards of the discount loop: day, time window, scope
(`product_ids` falsy when `None` or empty) and case pricing. -/
def hhSkipped (p : ProductRec) (weekday t : Nat) (is_case_price : Bool)
    (hh : HappyHour) : Bool :=
  !(is_day_active hh weekday) ||
  !(timeWindowOk hh.start_time hh.end_time t) ||
  (hh.applies_to = "category" && decide (p.category_id ≠ hh.category_id)) ||
  (hh.applies_to = "product" && truthyList hh.product_ids &&
    !((hh.product_ids.getD []).contains p.id)) ||
  (is_case_price && hh.exclude_case_pricing)

/-- Per-unit discount of one happy hour against the product's price. -/
def hhDiscount (p : ProductRec) (hh : HappyHour) : ℚ :=
  if hh.discount_type = "percentage" then p.price * (hh.discount_value / 100)
  else if hh.discount_type = "fixed" then hh.discount_value
  else if hh.discount_type = "price" then p.price - hh.discount_value
  else 0

/-- The best-discount fold: starting from `best_discount = 0` and no
winner, a rule that passes the guards and strictly beats the best so far
replaces it. -/
def bestFold (p : ProductRec) (weekday t : Nat) (is_case_price : Bool)
    (hhs : List HappyHour) : ℚ × Option HappyHour :=
  hhs.foldl (fun acc hh =>
    if hhSkipped p weekday t is_case_price hh then acc
    else if acc.1 < hhDiscount p hh then (hhDiscount p hh, some hh) else acc)
    (0, none)

structure HHResult where
  discount_per_unit : ℚ
  final_price : ℚ
  total_savings : ℚ
  happy_hour_id : Option Int
deriving DecidableEq

/-- Embedding of `POST /happy-hour/calculate-discount`: `hhs` stands for
the query result (rows with `is_active = True`); `weekday`/`t` are the
weekday and time of day of `datetime.now()`. -/
def calculate_happy_hour_discount (p : ProductRec) (weekday t : Nat)
    (quantity : Int) (is_case_price : Bool) (hhs : List HappyHour) : HHResult :=
  let b := bestFold p weekday t is_case_price hhs
  match b.2 with
  | some hh => ⟨b.1, p.price - b.1, b.1 * (quantity : ℚ), some hh.id⟩
  | none => ⟨0, p.price, 0, none⟩

end HH

namespace Fix

/-! Concrete fixtures used by the boundary scenarios, counterexamples and
witnesses: a catalog of two wines in category 5 at 10.00, and the rules the
scenarios configure. -/

def wine : ProductRec := ⟨1, some 5, some "Winery", 10⟩

def wine2 : ProductRec := ⟨2, some 5, none, 10⟩

/-- A storewide 200 percent promotion with no minimum and no usage cap. -/
def bigPromo : Promo.Promotion := ⟨1, "BIG", "percentage", 200, "all", none, none, 0, none, 0⟩

/-- One cart line: one unit of product 1 at 10.00. -/
def oneItemCart : List Promo.Item := [⟨1, 1, 10⟩]

/-- Six units of product 1 at 10.00 each. -/
def cart6 : List MM.Item := [⟨1, 6, 10⟩]

/-- One unit of product 1 at 10.00. -/
def cart1 : List MM.Item := [⟨1, 1, 10⟩]

/-- A cart with a valid line and a line of negative quantity. -/
def cartBad : List MM.Item := [⟨1, 6, 10⟩, ⟨2, -1, 10⟩]

/-- Stackable unscoped 10 percent mix-match deal, six units required. -/
def dealA : MM.Deal :=
  ⟨1, "A", none, none, none, none, none, 6, "percentage", 10, true, none, none, none, true, 0, 100⟩

/-- Stackable unscoped 10 percent mix-match deal, six units required,
created after `dealA`. -/
def dealB : MM.Deal :=
  ⟨2, "B", none, none, none, none, none, 6, "percentage", 10, true, none, none, none, true, 0, 200⟩

/-- The Mix 6 Wines scenario rule: six required, 10 percent, non-stackable. -/
def deal6 : MM.Deal :=
  ⟨1, "Mix 6 Wines", none, none, none, none, none, 6, "percentage", 10, false, none, none, none,
    true, 0, 100⟩

/-- A deal whose application cap is set to zero. -/
def dealCap0 : MM.Deal :=
  ⟨1, "Cap0", none, none, none, none, none, 1, "percentage", 10, false, some 0, none, none, true,
    0, 100⟩

/-- Priority 5, created at 300 (the later-created of the tie). -/
def dealLate : MM.Deal :=
  ⟨1, "Late", none, none, none, none, none, 1, "percentage", 10, true, none, none, none, true,
    5, 300⟩

/-- Priority 5, created at 100 (the earlier-created of the tie). -/
def dealEarly : MM.Deal :=
  ⟨2, "Early", none, none, none, none, none, 1, "percentage", 5, true, none, none, none, true,
    5, 100⟩

/-- Stackable 10 percent price rule without guards. -/
def ruleP1 : PR.PriceRule := ⟨1, "R1", none, none, none, none, "percent", 10, 0, true⟩

/-- Stackable 20 percent price rule without guards. -/
def ruleP2 : PR.PriceRule := ⟨2, "R2", none, none, none, none, "percent", 20, 0, true⟩

def tier6 : PR.Tier := ⟨some 6, some 10⟩

def tier12 : PR.Tier := ⟨some 12, some 15⟩

/-- The tier-selection scenario: 10 percent from 6 units, 15 from 12. -/
def vol : PR.VolumeDiscount := ⟨1, "Vol", [tier6, tier12]⟩

end Fix

/-! Auxiliary lemmas about the Python-dict model. -/

theorem dictGet?_dictInsert (k x : Int) (v : α) (d : List (Int × α)) :
    dictGet? x (dictInsert k v d) = if x = k then some v else dictGet? x d := by
  induction d with
  | nil =>
    by_cases hx : x = k <;> simp [dictInsert, dictGet?, hx]
  | cons e rest ih =>
    by_cases hk : k = e.1
    · subst hk
      by_cases hx : x = e.1 <;> simp [dictInsert, dictGet?, hx]
    · by_cases hx : x = e.1
      · subst hx
        have hxk : ¬e.1 = k := fun h => hk h.symm
        simp [dictInsert, dictGet?, hk, hxk]
      · simp [dictInsert, dictGet?, hk, hx, ih]

theorem mem_dictKeys_dictInsert (k x : Int) (v : α) (d : List (Int × α)) :
    x ∈ dictKeys (dictInsert k v d) ↔ x = k ∨ x ∈ dictKeys d := by
  induction d with
  | nil => simp [dictInsert, dictKeys]
  | cons e rest ih =>
    by_cases hk : k = e.1
    · subst hk
      simp [dictInsert, dictKeys]
    · simp only [dictInsert, if_neg hk, dictKeys, List.map_cons, List.mem_cons] at ih ⊢
      tauto

theorem dictKeys_dictInsert_of_mem (k : Int) (v : α) (d : List (Int × α))
    (h : k ∈ dictKeys d) : dictKeys (dictInsert k v d) = dictKeys d := by
  induction d with
  | nil => simp [dictKeys] at h
  | cons e rest ih =>
    by_cases hk : k = e.1
    · subst hk
      simp [dictInsert, dictKeys]
    · have hmem : k ∈ dictKeys rest := by
        simp only [dictKeys, List.map_cons, List.mem_cons] at h
        exact h.resolve_left hk
      simp only [dictInsert, if_neg hk, dictKeys, List.map_cons, List.cons.injEq, true_and]
      exact ih hmem

theorem nodup_dictKeys_dictInsert (k : Int) (v : α) (d : List (Int × α))
    (h : (dictKeys d).Nodup) : (dictKeys (dictInsert k v d)).Nodup := by
  induction d with
  | nil => simp [dictInsert, dictKeys]
  | cons e rest ih =>
    by_cases hk : k = e.1
    · subst hk
      simpa [dictInsert, dictKeys] using h
    · simp only [dictKeys, List.map_cons, List.nodup_cons] at h
      have h2 := ih h.2
      simp only [dictInsert, if_neg hk, dictKeys, List.map_cons, List.nodup_cons]
      refine ⟨fun hx => ?_, h2⟩
      rcases (mem_dictKeys_dictInsert k e.1 v rest).1 hx with h3 | h3
      · exact hk h3.symm
      · exact h.1 h3

theorem dictGet?_of_mem_nodup (k : Int) (v : α) (d : List (Int × α))
    (hm : (k, v) ∈ d) (hn : (dictKeys d).Nodup) : dictGet? k d = some v := by
  induction d with
  | nil => simp at hm
  | cons e rest ih =>
    simp only [dictKeys, List.map_cons, List.nodup_cons] at hn
    rcases List.mem_cons.1 hm with h | h
    · simp [dictGet?, ← h]
    · have hke : ¬k = e.1 := by
        intro hk
        exact hn.1 (hk ▸ (List.mem_map.2 ⟨(k, v), h, rfl⟩))
      simp [dictGet?, hke, ih h hn.2]

theorem mem_of_dictGet?_eq_some (k : Int) (v : α) (d : List (Int × α))
    (h : dictGet? k d = some v) : (k, v) ∈ d := by
  induction d with
  | nil => simp [dictGet?] at h
  | cons e rest ih =>
    obtain ⟨a, b⟩ := e
    by_cases hk : k = a
    · subst hk
      simp [dictGet?] at h
      subst h
      exact List.mem_cons_self _ _
    · simp only [dictGet?, if_neg hk] at h
      exact List.mem_cons_of_mem _ (ih h)

theorem mem_dictInsert (k : Int) (v : α) (d : List (Int × α)) :
    ∀ e ∈ dictInsert k v d, e = (k, v) ∨ e ∈ d := by
  induction d with
  | nil => simp [dictInsert]
  | cons f rest ih =>
    intro e he
    by_cases hk : k = f.1
    · simp only [dictInsert, if_pos hk, List.mem_cons] at he
      rcases he with h | h
      · exact Or.inl h
      · exact Or.inr (List.mem_cons_of_mem _ h)
    · simp only [dictInsert, if_neg hk, List.mem_cons] at he
      rcases he with h | h
      · exact Or.inr (h ▸ List.mem_cons_self _ _)
      · rcases ih e h with h2 | h2
        · exact Or.inl h2
        · exact Or.inr (List.mem_cons_of_mem _ h2)

theorem mem_mkItemDict (f : MM.Item → α) (items : List MM.Item) :
    ∀ e ∈ MM.mkItemDict f items, ∃ it ∈ items, e = (it.product_id, f it) := by
  suffices h : ∀ (xs : List MM.Item) (acc : List (Int × α)),
      ∀ e ∈ xs.foldl (fun dct it => dictInsert it.product_id (f it) dct) acc,
        e ∈ acc ∨ ∃ it ∈ xs, e = (it.product_id, f it) by
    intro e he
    rcases h items [] e he with h2 | h2
    · simp at h2
    · exact h2
  intro xs
  induction xs with
  | nil => intro acc e he; exact Or.inl he
  | cons it rest ih =>
    intro acc e he
    rcases ih (dictInsert it.product_id (f it) acc) e he with h2 | h2
    · rcases mem_dictInsert _ _ _ e h2 with h3 | h3
      · exact Or.inr ⟨it, List.mem_cons_self _ _, h3⟩
      · exact Or.inl h3
    · rcases h2 with ⟨it2, hm, he2⟩
      exact Or.inr ⟨it2, List.mem_cons_of_mem _ hm, he2⟩

theorem nodupKeys_mkItemDict (f : MM.Item → α) (items : List MM.Item) :
    (dictKeys (MM.mkItemDict f items)).Nodup := by
  suffices h : ∀ (xs : List MM.Item) (acc : List (Int × α)),
      (dictKeys acc).Nodup →
      (dictKeys (xs.foldl (fun dct it => dictInsert it.product_id (f it) dct) acc)).Nodup by
    exact h items [] (by simp [dictKeys])
  intro xs
  induction xs with
  | nil => intro acc h; exact h
  | cons it rest ih =>
    intro acc h
    exact ih _ (nodup_dictKeys_dictInsert _ _ _ h)

/-! Facts about the consumption loop. -/

theorem consume_mem (needed : Int) (qs : List MM.QEntry) :
    ∀ c ∈ MM.consume needed qs,
      MM.QEntry.mk c.pid c.rem c.price ∈ qs ∧ c.take ≤ c.rem ∧
        (0 ≤ c.rem → 0 ≤ c.take) := by
  induction qs generalizing needed with
  | nil => simp [MM.consume]
  | cons q rest ih =>
    intro c hc
    by_cases hn : needed ≤ 0
    · simp [MM.consume, hn] at hc
    · simp only [MM.consume, if_neg hn, List.mem_cons] at hc
      rcases hc with h | h
      · subst h
        refine ⟨List.mem_cons_self _ _, ?_, ?_⟩
        · simp only [min_le_iff]; exact Or.inl le_rfl
        · intro h0
          simp only [le_min_iff]
          exact ⟨h0, by omega⟩
      · rcases ih _ c h with ⟨h1, h2, h3⟩
        exact ⟨List.mem_cons_of_mem _ h1, h2, h3⟩

theorem consume_pids_sublist (needed : Int) (qs : List MM.QEntry) :
    ((MM.consume needed qs).map MM.Consumption.pid).Sublist
      (qs.map MM.QEntry.pid) := by
  induction qs generalizing needed with
  | nil => simp [MM.consume]
  | cons q rest ih =>
    by_cases hn : needed ≤ 0
    · simp [MM.consume, hn]
    · simp only [MM.consume, if_neg hn, List.map_cons]
      exact List.Sublist.cons₂ _ (ih _)

theorem consume_used (needed : Int) (qs : List MM.QEntry)
    (h0 : 0 ≤ needed) (hq : ∀ q ∈ qs, 0 ≤ q.rem) :
    MM.usedOf (MM.consume needed qs) = min needed ((qs.map MM.QEntry.rem).sum) := by
  induction qs generalizing needed with
  | nil =>
    simp only [MM.consume, MM.usedOf, List.map_nil, List.sum_nil]
    omega
  | cons q rest ih =>
    have hqr : 0 ≤ q.rem := hq q (List.mem_cons_self _ _)
    have hrest : ∀ p ∈ rest, 0 ≤ p.rem := fun p hp => hq p (List.mem_cons_of_mem _ hp)
    have hsum : 0 ≤ (rest.map MM.QEntry.rem).sum := by
      apply List.sum_nonneg
      intro x hx
      rcases List.mem_map.1 hx with ⟨p, hp, he⟩
      exact he ▸ hrest p hp
    by_cases hn : needed ≤ 0
    · have : needed = 0 := le_antisymm hn h0
      subst this
      simp only [MM.consume, if_pos le_rfl, MM.usedOf, List.map_nil, List.sum_nil,
        List.map_cons, List.sum_cons]
      omega
    · have hrec := ih (needed - min q.rem needed) (by omega) hrest
      simp only [MM.consume, if_neg hn, MM.usedOf, List.map_cons, List.sum_cons] at hrec ⊢
      rw [hrec]
      omega

/-! Facts about the qualifying-item gathering. -/

theorem qualifying_mem (products : List ProductRec) (prices : List (Int × ℚ))
    (d : MM.Deal) (pool : MM.Pool) :
    ∀ q ∈ MM.qualifyingItems products prices d pool,
      0 < q.rem ∧ (q.pid, q.rem) ∈ pool := by
  intro q hq
  rcases List.mem_filterMap.1 hq with ⟨e, he, hf⟩
  by_cases h0 : e.2 ≤ 0
  · simp [h0] at hf
  · simp only [if_neg h0] at hf
    rcases hfp : findProduct products e.1 with _ | p
    · rw [hfp] at hf; simp at hf
    · rw [hfp] at hf
      by_cases hpq : MM.product_qualifies p d
      · simp only [if_pos hpq, Option.some.injEq] at hf
        subst hf
        exact ⟨show (0 : Int) < e.2 by omega, by simpa using he⟩
      · simp [hpq] at hf

theorem qualifying_pids_sublist (products : List ProductRec)
    (prices : List (Int × ℚ)) (d : MM.Deal) (pool : MM.Pool) :
    ((MM.qualifyingItems products prices d pool).map MM.QEntry.pid).Sublist
      (dictKeys pool) := by
  induction pool with
  | nil => simp [MM.qualifyingItems, dictKeys]
  | cons e rest ih =>
    simp only [MM.qualifyingItems, List.filterMap_cons] at ih ⊢
    by_cases h0 : e.2 ≤ 0
    · simp only [if_pos h0, dictKeys, List.map_cons]
      exact ih.cons _
    · simp only [if_neg h0]
      rcases hfp : findProduct products e.1 with _ | p
      · simp only [dictKeys, List.map_cons]
        exact ih.cons _
      · by_cases hpq : MM.product_qualifies p d
        · simp only [if_pos hpq, List.map_cons, dictKeys]
          exact ih.cons₂ _
        · simp only [if_neg hpq, dictKeys, List.map_cons]
          exact ih.cons _

/-! Facts about the pool write-back of a non-stackable deal. -/

theorem dictGet?_writeTakes_not_mem (cs : List MM.Consumption) (pool : MM.Pool)
    (x : Int) (hx : x ∉ cs.map MM.Consumption.pid) :
    dictGet? x (MM.writeTakes pool cs) = dictGet? x pool := by
  induction cs generalizing pool with
  | nil => rfl
  | cons c rest ih =>
    simp only [List.map_cons, List.mem_cons, not_or] at hx
    have h1 := ih (dictInsert c.pid (c.rem - c.take) pool) hx.2
    simp only [MM.writeTakes, List.foldl_cons] at h1 ⊢
    rw [h1, dictGet?_dictInsert, if_neg hx.1]

theorem dictGet?_writeTakes_mem (cs : List MM.Consumption) (pool : MM.Pool)
    (c : MM.Consumption) (hc : c ∈ cs) (hn : (cs.map MM.Consumption.pid).Nodup) :
    dictGet? c.pid (MM.writeTakes pool cs) = some (c.rem - c.take) := by
  induction cs generalizing pool with
  | nil => simp at hc
  | cons c0 rest ih =>
    simp only [List.map_cons, List.nodup_cons] at hn
    rcases List.mem_cons.1 hc with h | h
    · subst h
      have h1 := dictGet?_writeTakes_not_mem rest
        (dictInsert c.pid (c.rem - c.take) pool) c.pid hn.1
      simp only [MM.writeTakes, List.foldl_cons] at h1 ⊢
      rw [h1, dictGet?_dictInsert, if_pos rfl]
    · simp only [MM.writeTakes, List.foldl_cons]
      exact ih _ h hn.2

theorem dictKeys_writeTakes (cs : List MM.Consumption) (pool : MM.Pool)
    (h : ∀ c ∈ cs, c.pid ∈ dictKeys pool) :
    dictKeys (MM.writeTakes pool cs) = dictKeys pool := by
  induction cs generalizing pool with
  | nil => rfl
  | cons c rest ih =>
    have hk := dictKeys_dictInsert_of_mem c.pid (c.rem - c.take) pool
      (h c (List.mem_cons_self _ _))
    have h2 : ∀ c2 ∈ rest, c2.pid ∈ dictKeys (dictInsert c.pid (c.rem - c.take) pool) := by
      intro c2 hc2
      rw [hk]
      exact h c2 (List.mem_cons_of_mem _ hc2)
    simp only [MM.writeTakes, List.foldl_cons] at ih ⊢
    rw [ih _ h2, hk]

/-! Facts about per-product-id consumption accounting. -/

theorem takeAt_not_mem (cs : List MM.Consumption) (x : Int)
    (hx : x ∉ cs.map MM.Consumption.pid) : MM.takeAt cs x = 0 := by
  induction cs with
  | nil => rfl
  | cons c rest ih =>
    simp only [List.map_cons, List.mem_cons, not_or] at hx
    have hne : ¬c.pid = x := fun h => hx.1 h.symm
    have ht := ih hx.2
    simp only [MM.takeAt] at ht
    simp [MM.takeAt, List.filter_cons, hne, ht]

theorem takeAt_mem (cs : List MM.Consumption) (c : MM.Consumption)
    (hc : c ∈ cs) (hn : (cs.map MM.Consumption.pid).Nodup) :
    MM.takeAt cs c.pid = c.take := by
  induction cs with
  | nil => simp at hc
  | cons c0 rest ih =>
    simp only [List.map_cons, List.nodup_cons] at hn
    rcases List.mem_cons.1 hc with h | h
    · subst h
      have hz := takeAt_not_mem rest c.pid hn.1
      simp only [MM.takeAt] at hz
      simp [MM.takeAt, List.filter_cons, hz]
    · have hne : ¬c0.pid = c.pid := by
        intro he
        exact hn.1 (he ▸ List.mem_map.2 ⟨c, h, rfl⟩)
      simp only [MM.takeAt, List.filter_cons] at ih ⊢
      simp only [hne]
      simp [hne] at ih ⊢
      exact ih h hn.2

/-! Decomposition of one deal-loop iteration into its observers. -/

theorem dealStep_pool (products : List ProductRec) (prices : List (Int × ℚ))
    (st : MM.St) (d : MM.Deal) :
    (MM.dealStep products prices st d).pool = MM.poolStep products prices st.pool d := by
  simp only [MM.dealStep, MM.poolStep, MM.dealTakes]
  by_cases h1 : (MM.qualifyingItems products prices d st.pool).isEmpty = true
  · simp only [if_pos h1]
    cases hd : d.stackable <;> simp [hd, MM.writeTakes]
  · simp only [if_neg h1]
    by_cases h2 : MM.mmTimes d (((MM.qualifyingItems products prices d st.pool).map
        MM.QEntry.rem).sum) ≤ 0
    · simp only [if_pos h2]
      cases hd : d.stackable <;> simp [hd, MM.writeTakes]
    · simp only [if_neg h2]
      split <;> rfl

theorem dealStep_total (products : List ProductRec) (prices : List (Int × ℚ))
    (st : MM.St) (d : MM.Deal) :
    (MM.dealStep products prices st d).total =
      st.total + MM.dealContribution products prices st.pool d := by
  simp only [MM.dealStep, MM.dealContribution]
  by_cases h1 : (MM.qualifyingItems products prices d st.pool).isEmpty = true
  · simp only [if_pos h1]
    simp
  · simp only [if_neg h1]
    by_cases h2 : MM.mmTimes d (((MM.qualifyingItems products prices d st.pool).map
        MM.QEntry.rem).sum) ≤ 0
    · simp only [if_pos h2]
      simp
    · simp only [if_neg h2]
      split <;> simp

theorem dealStep_applied (products : List ProductRec) (prices : List (Int × ℚ))
    (st : MM.St) (d : MM.Deal) :
    ∃ ap : List MM.Applied, (MM.dealStep products prices st d).applied = st.applied ++ ap ∧
      (ap.map MM.Applied.deal_id).Sublist [d.id] := by
  simp only [MM.dealStep]
  by_cases h1 : (MM.qualifyingItems products prices d st.pool).isEmpty = true
  · exact ⟨[], by simp [h1], by simp⟩
  · by_cases h2 : MM.mmTimes d (((MM.qualifyingItems products prices d st.pool).map
        MM.QEntry.rem).sum) ≤ 0
    · exact ⟨[], by simp [if_pos h2], by simp⟩
    · simp only [if_neg h1, if_neg h2]
      split
      · refine ⟨_, rfl, ?_⟩
        simp
      · exact ⟨[], by simp, by simp⟩

/-! Facts about the consumption events of one deal. -/

theorem dealTakes_pids_sublist (products : List ProductRec)
    (prices : List (Int × ℚ)) (pool : MM.Pool) (d : MM.Deal) :
    ((MM.dealTakes products prices pool d).map MM.Consumption.pid).Sublist
      (dictKeys pool) := by
  simp only [MM.dealTakes]
  by_cases h1 : (MM.qualifyingItems products prices d pool).isEmpty = true
  · simp [h1]
  · by_cases h2 : MM.mmTimes d (((MM.qualifyingItems products prices d pool).map
        MM.QEntry.rem).sum) ≤ 0
    · simp [h1, h2]
    · simp only [h1, if_false, h2]
      exact (consume_pids_sublist _ _).trans (qualifying_pids_sublist _ _ _ _)

theorem dealTakes_mem (products : List ProductRec) (prices : List (Int × ℚ))
    (pool : MM.Pool) (d : MM.Deal) (hn : (dictKeys pool).Nodup) :
    ∀ c ∈ MM.dealTakes products prices pool d,
      dictGet? c.pid pool = some c.rem ∧ 0 < c.rem ∧ c.take ≤ c.rem ∧ 0 ≤ c.take := by
  intro c hc
  simp only [MM.dealTakes] at hc
  by_cases h1 : (MM.qualifyingItems products prices d pool).isEmpty = true
  · simp [h1] at hc
  · by_cases h2 : MM.mmTimes d (((MM.qualifyingItems products prices d pool).map
        MM.QEntry.rem).sum) ≤ 0
    · simp [h1, h2] at hc
    · simp only [h1, if_false, h2] at hc
      rcases consume_mem _ _ c hc with ⟨hq, hle, hpos⟩
      rcases qualifying_mem products prices d pool _ hq with ⟨hrem, hmem⟩
      have hget : dictGet? c.pid pool = some c.rem :=
        dictGet?_of_mem_nodup _ _ _ hmem hn
      exact ⟨hget, hrem, hle, hpos (le_of_lt hrem)⟩

theorem dictKeys_poolStep (products : List ProductRec) (prices : List (Int × ℚ))
    (pool : MM.Pool) (d : MM.Deal) :
    dictKeys (MM.poolStep products prices pool d) = dictKeys pool := by
  simp only [MM.poolStep]
  cases hd : d.stackable
  · simp only [Bool.false_eq_true, if_false]
    apply dictKeys_writeTakes
    intro c hc
    exact (dealTakes_pids_sublist products prices pool d).subset
      (List.mem_map.2 ⟨c, hc, rfl⟩)
  · simp

theorem poolStep_value (products : List ProductRec) (prices : List (Int × ℚ))
    (pool : MM.Pool) (d : MM.Deal) (x : Int) (hn : (dictKeys pool).Nodup) :
    (dictGet? x (MM.poolStep products prices pool d)).getD 0 =
      (dictGet? x pool).getD 0 -
        (if d.stackable then 0
         else MM.takeAt (MM.dealTakes products prices pool d) x) := by
  cases hd : d.stackable
  · simp only [Bool.false_eq_true, if_false, MM.poolStep, hd]
    have hpn : ((MM.dealTakes products prices pool d).map MM.Consumption.pid).Nodup :=
      (dealTakes_pids_sublist products prices pool d).nodup hn
    by_cases hx : x ∈ (MM.dealTakes products prices pool d).map MM.Consumption.pid
    · rcases List.mem_map.1 hx with ⟨c, hc, he⟩
      subst he
      rw [dictGet?_writeTakes_mem _ _ c hc hpn, takeAt_mem _ c hc hpn]
      rcases dealTakes_mem products prices pool d hn c hc with ⟨hget, _, _, _⟩
      rw [hget]
      simp
    · rw [dictGet?_writeTakes_not_mem _ _ _ hx, takeAt_not_mem _ _ hx]
      simp
  · simp [MM.poolStep, hd]

theorem takeAt_dealTakes_bounds (products : List ProductRec)
    (prices : List (Int × ℚ)) (pool : MM.Pool) (d : MM.Deal) (x : Int)
    (hn : (dictKeys pool).Nodup) :
    0 ≤ MM.takeAt (MM.dealTakes products prices pool d) x ∧
      MM.takeAt (MM.dealTakes products prices pool d) x ≤
        max ((dictGet? x pool).getD 0) 0 := by
  have hpn : ((MM.dealTakes products prices pool d).map MM.Consumption.pid).Nodup :=
    (dealTakes_pids_sublist products prices pool d).nodup hn
  by_cases hx : x ∈ (MM.dealTakes products prices pool d).map MM.Consumption.pid
  · rcases List.mem_map.1 hx with ⟨c, hc, he⟩
    subst he
    rw [takeAt_mem _ c hc hpn]
    rcases dealTakes_mem products prices pool d hn c hc with ⟨hget, hrem, hle, hpos⟩
    rw [hget]
    constructor
    · exact hpos
    · simp only [Option.getD_some]
      omega
  · rw [takeAt_not_mem _ _ hx]
    constructor
    · exact le_rfl
    · exact le_max_right _ _

theorem runConsumedNS_le (products : List ProductRec) (prices : List (Int × ℚ))
    (x : Int) (ds : List MM.Deal) :
    ∀ pool : MM.Pool, (dictKeys pool).Nodup → 0 ≤ (dictGet? x pool).getD 0 →
      0 ≤ MM.runConsumedNS products prices x pool ds ∧
        MM.runConsumedNS products prices x pool ds ≤ (dictGet? x pool).getD 0 := by
  induction ds with
  | nil =>
    intro pool _ hv
    simp only [MM.runConsumedNS]
    omega
  | cons d rest ih =>
    intro pool hn hv
    have hkeys := dictKeys_poolStep products prices pool d
    have hn2 : (dictKeys (MM.poolStep products prices pool d)).Nodup := hkeys ▸ hn
    have hval := poolStep_value products prices pool d x hn
    have hb := takeAt_dealTakes_bounds products prices pool d x hn
    have hT : (if d.stackable then 0
        else MM.takeAt (MM.dealTakes products prices pool d) x) ≤
          (dictGet? x pool).getD 0 := by
      cases d.stackable
      · simp only [Bool.false_eq_true, if_false]
        omega
      · simpa using hv
    have hT0 : 0 ≤ (if d.stackable then 0
        else MM.takeAt (MM.dealTakes products prices pool d) x) := by
      cases d.stackable
      · simpa using hb.1
      · simp
    have hv2 : 0 ≤ (dictGet? x (MM.poolStep products prices pool d)).getD 0 := by
      omega
    rcases ih (MM.poolStep products prices pool d) hn2 hv2 with ⟨h1, h2⟩
    simp only [MM.runConsumedNS]
    omega

/-! Run-level facts about the deal loop. -/

theorem foldl_dealStep_pool (products : List ProductRec) (prices : List (Int × ℚ))
    (ds : List MM.Deal) :
    ∀ st : MM.St, (ds.foldl (MM.dealStep products prices) st).pool =
      ds.foldl (MM.poolStep products prices) st.pool := by
  induction ds with
  | nil => intro st; rfl
  | cons d rest ih =>
    intro st
    simp only [List.foldl_cons]
    rw [ih, dealStep_pool]

theorem foldl_dealStep_applied (products : List ProductRec)
    (prices : List (Int × ℚ)) (ds : List MM.Deal) :
    ∀ st : MM.St, ∃ ap : List MM.Applied,
      (ds.foldl (MM.dealStep products prices) st).applied = st.applied ++ ap ∧
        (ap.map MM.Applied.deal_id).Sublist (ds.map MM.Deal.id) := by
  induction ds with
  | nil => intro st; exact ⟨[], by simp, by simp⟩
  | cons d rest ih =>
    intro st
    rcases dealStep_applied products prices st d with ⟨ap1, he1, hs1⟩
    rcases ih (MM.dealStep products prices st d) with ⟨ap2, he2, hs2⟩
    refine ⟨ap1 ++ ap2, ?_, ?_⟩
    · simp only [List.foldl_cons, he2, he1, List.append_assoc]
    · simp only [List.map_append, List.map_cons]
      exact List.Sublist.append hs1 hs2

theorem qualifying_nil_of_nonpos (products : List ProductRec)
    (prices : List (Int × ℚ)) (d : MM.Deal) (pool : MM.Pool)
    (h : ∀ e ∈ pool, e.2 ≤ 0) :
    MM.qualifyingItems products prices d pool = [] := by
  induction pool with
  | nil => rfl
  | cons e rest ih =>
    have he := h e (List.mem_cons_self _ _)
    have hr := ih (fun e2 he2 => h e2 (List.mem_cons_of_mem _ he2))
    simp only [MM.qualifyingItems, List.filterMap_cons, if_pos he] at hr ⊢
    exact hr

theorem dealStep_of_qualifying_nil (products : List ProductRec)
    (prices : List (Int × ℚ)) (st : MM.St) (d : MM.Deal)
    (h : MM.qualifyingItems products prices d st.pool = []) :
    MM.dealStep products prices st d = st := by
  simp [MM.dealStep, h]

theorem foldl_dealStep_of_nonpos (products : List ProductRec)
    (prices : List (Int × ℚ)) (ds : List MM.Deal) :
    ∀ st : MM.St, (∀ e ∈ st.pool, e.2 ≤ 0) →
      ds.foldl (MM.dealStep products prices) st = st := by
  induction ds with
  | nil => intro st _; rfl
  | cons d rest ih =>
    intro st h
    have h1 := dealStep_of_qualifying_nil products prices st d
      (qualifying_nil_of_nonpos products prices d st.pool h)
    simp only [List.foldl_cons, h1]
    exact ih st h

theorem mul_fdiv_le (a b : Int) (hb : 0 < b) : b * Int.fdiv a b ≤ a := by
  rw [Int.fdiv_eq_ediv _ (le_of_lt hb)]
  have h1 := Int.emod_add_ediv a b
  have h2 := Int.emod_nonneg a (ne_of_gt hb)
  omega

theorem mul_le_of_le_fdiv (a b c : Int) (hb : 0 < b) (hc : c ≤ Int.fdiv a b) :
    b * c ≤ a := by
  rw [Int.fdiv_eq_ediv _ (le_of_lt hb)] at hc
  have h1 := Int.emod_add_ediv a b
  have h2 := Int.emod_nonneg a (ne_of_gt hb)
  nlinarith

/-! Facts about the promotion loop. -/

theorem promoFold_nonneg (products : List ProductRec) (items : List Promo.Item)
    (subtotal : ℚ) (promos : List Promo.Promotion) :
    ∀ acc : ℚ × List Promo.AppliedPromo, 0 ≤ acc.1 →
      0 ≤ (promos.foldl (Promo.promoStep products items subtotal) acc).1 := by
  induction promos with
  | nil => intro acc h; exact h
  | cons p rest ih =>
    intro acc h
    simp only [List.foldl_cons]
    apply ih
    simp only [Promo.promoStep]
    split
    · exact h
    · split
      · rename_i hd
        simp only
        linarith
      · exact h

theorem promoFold_provenance (products : List ProductRec) (items : List Promo.Item)
    (subtotal : ℚ) (promos : List Promo.Promotion) :
    ∀ acc : ℚ × List Promo.AppliedPromo,
      ∀ a ∈ (promos.foldl (Promo.promoStep products items subtotal) acc).2,
        a ∈ acc.2 ∨ ∃ p ∈ promos,
          0 < Promo.promoDiscount products items subtotal p ∧
          a = ⟨p.id, p.name, Promo.promoDiscount products items subtotal p⟩ := by
  induction promos with
  | nil => intro acc a ha; exact Or.inl ha
  | cons p rest ih =>
    intro acc a ha
    simp only [List.foldl_cons] at ha
    rcases ih (Promo.promoStep products items subtotal acc p) a ha with h | h
    · simp only [Promo.promoStep] at h
      split at h
      · exact Or.inl h
      · split at h
        · rename_i hd
          rcases List.mem_append.1 h with h2 | h2
          · exact Or.inl h2
          · simp only [List.mem_singleton] at h2
            exact Or.inr ⟨p, List.mem_cons_self _ _, hd, h2⟩
        · exact Or.inl h
    · rcases h with ⟨p2, hp2, hd2, he2⟩
      exact Or.inr ⟨p2, List.mem_cons_of_mem _ hp2, hd2, he2⟩

/-! Facts about the price-rule loop. -/

theorem applyRules_percent_compound (now : Int) (qty : Int) (ct : Option String)
    (rules : List PR.PriceRule) :
    ∀ price : ℚ,
      (∀ r ∈ rules, PR.ruleSkipped now qty ct r = false ∧
        r.discount_type = "percent" ∧ r.stackable = true) →
      (PR.applyRules now qty ct price rules).1 =
        price * ((rules.map (fun r => 1 - r.discount_value / 100)).prod) := by
  induction rules with
  | nil => intro price _; simp [PR.applyRules]
  | cons r rest ih =>
    intro price h
    rcases h r (List.mem_cons_self _ _) with ⟨hs, ht, hst⟩
    have hrest := fun r2 hr2 => h r2 (List.mem_cons_of_mem _ hr2)
    simp only [PR.applyRules, hs, Bool.false_eq_true, if_false, ht, if_pos rfl, hst, if_true]
    rw [ih _ hrest]
    simp only [List.map_cons, List.prod_cons]
    ring

/-! Facts about the happy-hour best-discount fold. -/

theorem bestFold_spec (p : ProductRec) (wd t : Nat) (c : Bool)
    (hhs : List HH.HappyHour) :
    ∀ (b : ℚ) (o : Option HH.HappyHour), 0 ≤ b →
      let r := hhs.foldl (fun acc hh =>
        if HH.hhSkipped p wd t c hh then acc
        else if acc.1 < HH.hhDiscount p hh then (HH.hhDiscount p hh, some hh) else acc) (b, o)
      0 ≤ r.1 ∧ b ≤ r.1 ∧
        (∀ hh ∈ hhs, HH.hhSkipped p wd t c hh = false → HH.hhDiscount p hh ≤ r.1) ∧
        ((r.1 = b ∧ r.2 = o) ∨
          ∃ hh ∈ hhs, HH.hhSkipped p wd t c hh = false ∧
            HH.hhDiscount p hh = r.1 ∧ r.2 = some hh ∧ b < r.1) := by
  induction hhs with
  | nil =>
    intro b o hb
    exact ⟨hb, le_rfl, by simp, Or.inl ⟨rfl, rfl⟩⟩
  | cons hh rest ih =>
    intro b o hb
    by_cases hsk : HH.hhSkipped p wd t c hh = true
    · have step : (if HH.hhSkipped p wd t c hh then (b, o)
          else if b < HH.hhDiscount p hh then (HH.hhDiscount p hh, some hh) else (b, o)) = (b, o) := by
        simp [hsk]
      rcases ih b o hb with ⟨h1, h2, h3, h4⟩
      simp only [List.foldl_cons, step]
      refine ⟨h1, h2, ?_, ?_⟩
      · intro hh2 hm he
        rcases List.mem_cons.1 hm with hm2 | hm2
        · subst hm2
          rw [hsk] at he
          cases he
        · exact h3 hh2 hm2 he
      · rcases h4 with h4 | ⟨hh2, hm2, he2, hd2, ho2, hlt2⟩
        · exact Or.inl h4
        · exact Or.inr ⟨hh2, List.mem_cons_of_mem _ hm2, he2, hd2, ho2, hlt2⟩
    · have hsk2 : HH.hhSkipped p wd t c hh = false := by
        cases hq : HH.hhSkipped p wd t c hh
        · rfl
        · exact absurd hq hsk
      by_cases hlt : b < HH.hhDiscount p hh
      · have step : (if HH.hhSkipped p wd t c hh then (b, o)
            else if b < HH.hhDiscount p hh then (HH.hhDiscount p hh, some hh) else (b, o)) =
            (HH.hhDiscount p hh, some hh) := by
          simp [hsk2, hlt]
        have hd0 : 0 ≤ HH.hhDiscount p hh := le_of_lt (lt_of_le_of_lt hb hlt)
        rcases ih (HH.hhDiscount p hh) (some hh) hd0 with ⟨h1, h2, h3, h4⟩
        simp only [List.foldl_cons, step]
        refine ⟨h1, le_trans (le_of_lt hlt) h2, ?_, ?_⟩
        · intro hh2 hm he
          rcases List.mem_cons.1 hm with hm2 | hm2
          · subst hm2; exact h2
          · exact h3 hh2 hm2 he
        · rcases h4 with ⟨he4, ho4⟩ | ⟨hh2, hm2, he2, hd2, ho2, hlt2⟩
          · exact Or.inr ⟨hh, List.mem_cons_self _ _, hsk2, he4.symm, ho4,
              lt_of_lt_of_le hlt (le_of_eq he4.symm)⟩
          · exact Or.inr ⟨hh2, List.mem_cons_of_mem _ hm2, he2, hd2, ho2,
              lt_trans hlt hlt2⟩
      · have step : (if HH.hhSkipped p wd t c hh then (b, o)
            else if b < HH.hhDiscount p hh then (HH.hhDiscount p hh, some hh) else (b, o)) =
            (b, o) := by
          simp [hsk2, hlt]
        rcases ih b o hb with ⟨h1, h2, h3, h4⟩
        simp only [List.foldl_cons, step]
        refine ⟨h1, h2, ?_, ?_⟩
        · intro hh2 hm he
          rcases List.mem_cons.1 hm with hm2 | hm2
          · subst hm2
            exact le_trans (not_lt.1 hlt) h2
          · exact h3 hh2 hm2 he
        · rcases h4 with h4 | ⟨hh2, hm2, he2, hd2, ho2, hlt2⟩
          · exact Or.inl h4
          · exact Or.inr ⟨hh2, List.mem_cons_of_mem _ hm2, he2, hd2, ho2, hlt2⟩

/-! Facts about tier selection. -/

theorem sorted_sortTiersDesc (ts : List PR.Tier) :
    List.Sorted PR.tierGE (PR.sortTiersDesc ts) :=
  List.sorted_insertionSort PR.tierGE ts

theorem mem_sortTiersDesc (ts : List PR.Tier) (t : PR.Tier) :
    t ∈ PR.sortTiersDesc ts ↔ t ∈ ts :=
  (List.perm_insertionSort PR.tierGE ts).mem_iff

theorem find_tier_max (q : Int) :
    ∀ l : List PR.Tier, List.Sorted PR.tierGE l →
      ∀ t : PR.Tier, l.find? (fun t2 => decide (PR.tierKey t2 ≤ q)) = some t →
        t ∈ l ∧ PR.tierKey t ≤ q ∧
          ∀ u ∈ l, PR.tierKey u ≤ q → PR.tierKey u ≤ PR.tierKey t := by
  intro l
  induction l with
  | nil => intro _ t h; simp at h
  | cons a rest ih =>
    intro hs t hf
    rcases List.sorted_cons.1 hs with ⟨ha, hrest⟩
    by_cases hp : PR.tierKey a ≤ q
    · have : a = t := by
        simp only [List.find?_cons, decide_eq_true hp] at hf
        exact Option.some.inj hf
      subst this
      refine ⟨List.mem_cons_self _ _, hp, ?_⟩
      intro u hu _
      rcases List.mem_cons.1 hu with h2 | h2
      · exact le_of_eq (h2 ▸ rfl)
      · exact ha u h2
    · have hf2 : rest.find? (fun t2 => decide (PR.tierKey t2 ≤ q)) = some t := by
        simpa only [List.find?_cons, decide_eq_false hp] using hf
      rcases ih hrest t hf2 with ⟨h1, h2, h3⟩
      refine ⟨List.mem_cons_of_mem _ h1, h2, ?_⟩
      intro u hu hq2
      rcases List.mem_cons.1 hu with h4 | h4
      · exact absurd (h4 ▸ hq2) hp
      · exact h3 u h4 hq2

theorem selectTier_some (ts : List PR.Tier) (q : Int) (t : PR.Tier)
    (h : PR.selectTier ts q = some t) :
    t ∈ ts ∧ PR.tierKey t ≤ q ∧
      ∀ u ∈ ts, PR.tierKey u ≤ q → PR.tierKey u ≤ PR.tierKey t := by
  rcases find_tier_max q (PR.sortTiersDesc ts) (sorted_sortTiersDesc ts) t h with
    ⟨h1, h2, h3⟩
  refine ⟨(mem_sortTiersDesc ts t).1 h1, h2, ?_⟩
  intro u hu hq
  exact h3 u ((mem_sortTiersDesc ts u).2 hu) hq

theorem selectTier_none (ts : List PR.Tier) (q : Int)
    (h : PR.selectTier ts q = none) : ∀ u ∈ ts, q < PR.tierKey u := by
  intro u hu
  have h2 := List.find?_eq_none.1 h u ((mem_sortTiersDesc ts u).2 hu)
  simpa using h2

/-! ## Claim theorems -/

/-- C1, counterexample: one active storewide 200 percent promotion on a
one-line cart of subtotal 10.00 yields a total discount of 20.00, above the
subtotal, and a reported final subtotal of -10.00, below zero — the
promotion calculator clamps neither quantity. -/
theorem c1_counterexample :
    (Promo.calculate_discounts [] [Fix.bigPromo] Fix.oneItemCart).subtotal = 10 ∧
    (Promo.calculate_discounts [] [Fix.bigPromo] Fix.oneItemCart).total_discount = 20 ∧
    (Promo.calculate_discounts [] [Fix.bigPromo] Fix.oneItemCart).subtotal <
      (Promo.calculate_discounts [] [Fix.bigPromo] Fix.oneItemCart).total_discount ∧
    (Promo.calculate_discounts [] [Fix.bigPromo] Fix.oneItemCart).final_subtotal < 0 := by
  norm_num [Promo.calculate_discounts, Promo.promoStep, Promo.promoSkipped, Promo.promoDiscount,
    Promo.itemDiscount, Promo.subtotalOf, Fix.bigPromo, Fix.oneItemCart, truthyInt]

/-- C1 (amended): the total discount is never negative, but the promotion
calculator reports `final_subtotal = subtotal - total_discount` with no
clamping at zero and no cap at the subtotal; only the price-rule calculator
clamps, reporting `final_price = max 0 (base_total - total_savings) ≥ 0`. -/
theorem c1_discount_bounds :
    (∀ (products : List ProductRec) (promos : List Promo.Promotion)
        (items : List Promo.Item),
      0 ≤ (Promo.calculate_discounts products promos items).total_discount ∧
      (Promo.calculate_discounts products promos items).final_subtotal =
        (Promo.calculate_discounts products promos items).subtotal -
          (Promo.calculate_discounts products promos items).total_discount) ∧
    (∀ (now : Int) (base : ℚ) (qty : Int) (ct : Option String)
        (vds : List PR.VolumeDiscount) (rules : List PR.PriceRule),
      0 ≤ (PR.calculate_price now base qty ct vds rules).final_price ∧
      (PR.calculate_price now base qty ct vds rules).final_price =
        max 0 ((PR.calculate_price now base qty ct vds rules).base_total -
          (PR.calculate_price now base qty ct vds rules).total_savings)) := by
  constructor
  · intro products promos items
    refine ⟨?_, rfl⟩
    exact promoFold_nonneg products items (Promo.subtotalOf items) promos (0, []) le_rfl
  · intro now base qty ct vds rules
    constructor
    · exact le_max_left 0 _
    · simp only [PR.calculate_price, sub_sub_cancel]

/-- C2, counterexample: two stackable 10 percent mix-match deals over the
same six 10.00 wines each discount 6.00, so the second deal's discount is
computed against the original 60.00 subtotal and not against the 54.00
remaining after the first deal (which would have given 5.40). -/
theorem c2_counterexample :
    ((MM.calculate_discounts [Fix.wine] 0 [Fix.dealA, Fix.dealB] Fix.cart6).applicable_deals.map
      MM.Applied.discount_amount) = [6, 6] ∧
    (MM.calculate_discounts [Fix.wine] 0 [Fix.dealA, Fix.dealB] Fix.cart6).total_discount = 12 ∧
    (6 : ℚ) ≠ (60 - 6) * (10 / 100) := by
  have hfd : Int.fdiv (6 : ℤ) 6 = 1 := by decide
  refine ⟨?_, ?_, by norm_num⟩ <;>
  · norm_num [MM.calculate_discounts, MM.dealStep, MM.is_deal_active, MM.qualifyingItems,
      MM.mkItemDict, MM.product_qualifies, MM.mmTimes, MM.consume, MM.usedOf,
      MM.consumedSubtotal, MM.dealDiscount, MM.writeTakes, dictInsert, dictGet?, findProduct,
      truthyInt, truthyList, truthyStr, truthyRat, Fix.wine, Fix.dealA, Fix.dealB, Fix.cart6,
      List.filter, List.foldl, List.filterMap, List.isEmpty, hfd]

/-- C2 (amended): in the price-rule loop each applicable stackable
percentage rule discounts the running price, so the final price compounds
multiplicatively over the rules in order; in the mix-match loop, by
contrast, each deal's contribution to the total is a function of the
remaining pool and the cart's original unit prices only — it never depends
on the discount already accumulated, so stacked mix-match discounts add
instead of compounding. -/
theorem c2_compounding (now qty : Int) (ct : Option String)
    (rules : List PR.PriceRule) (price : ℚ)
    (h : ∀ r ∈ rules, PR.ruleSkipped now qty ct r = false ∧
      r.discount_type = "percent" ∧ r.stackable = true) :
    (PR.applyRules now qty ct price rules).1 =
      price * ((rules.map (fun r => 1 - r.discount_value / 100)).prod) ∧
    ∀ (products : List ProductRec) (prices : List (Int × ℚ)) (st : MM.St) (d : MM.Deal),
      (MM.dealStep products prices st d).total =
        st.total + MM.dealContribution products prices st.pool d := by
  constructor
  · exact applyRules_percent_compound now qty ct rules price h
  · intro products prices st d
    exact dealStep_total products prices st d

/-- C2, witness: two stackable 10 and 20 percent rules on a 100.00 price
land on 100 × 0.9 × 0.8. -/
theorem c2_compounding_witness :
    (PR.applyRules 0 1 none 100 [Fix.ruleP1, Fix.ruleP2]).1 =
      100 * (([Fix.ruleP1, Fix.ruleP2].map (fun r => 1 - r.discount_value / 100)).prod) :=
  (c2_compounding 0 1 none [Fix.ruleP1, Fix.ruleP2] 100 (by decide)).1

/-- C3: the happy-hour calculator applies at most one rule (a single
optional winner): the reported per-unit discount dominates the discount of
every rule passing the day/time/scope/case guards; when it is positive it
is attained by an eligible rule, the one whose id is reported, and the
final price is the original price less that discount; and when no eligible
rule yields a positive discount the result is a zero discount at the
original price with no rule applied. -/
theorem c3_best_discount_wins (p : ProductRec) (wd t : Nat) (q : Int) (c : Bool)
    (hhs : List HH.HappyHour) :
    (∀ hh ∈ hhs, HH.hhSkipped p wd t c hh = false →
      HH.hhDiscount p hh ≤
        (HH.calculate_happy_hour_discount p wd t q c hhs).discount_per_unit) ∧
    (0 < (HH.calculate_happy_hour_discount p wd t q c hhs).discount_per_unit →
      ∃ hh ∈ hhs, HH.hhSkipped p wd t c hh = false ∧
        HH.hhDiscount p hh = (HH.calculate_happy_hour_discount p wd t q c hhs).discount_per_unit ∧
        (HH.calculate_happy_hour_discount p wd t q c hhs).happy_hour_id = some hh.id ∧
        (HH.calculate_happy_hour_discount p wd t q c hhs).final_price =
          p.price - HH.hhDiscount p hh) ∧
    ((∀ hh ∈ hhs, HH.hhSkipped p wd t c hh = false → HH.hhDiscount p hh ≤ 0) →
      (HH.calculate_happy_hour_discount p wd t q c hhs) = ⟨0, p.price, 0, none⟩) := by
  obtain ⟨h1, h2, h3, h4⟩ := bestFold_spec p wd t c hhs 0 none le_rfl
  have hbf : HH.bestFold p wd t c hhs = hhs.foldl (fun acc hh =>
      if HH.hhSkipped p wd t c hh then acc
      else if acc.1 < HH.hhDiscount p hh then (HH.hhDiscount p hh, some hh) else acc) (0, none) := rfl
  rcases hb : (HH.bestFold p wd t c hhs).2 with _ | hh0
  · -- no winner: fold snd = none; show fst = 0 via h4
    have hfst : (HH.bestFold p wd t c hhs).1 = 0 := by
      rcases h4 with ⟨he, _⟩ | ⟨hh2, _, _, _, ho2, _⟩
      · rw [hbf]; exact he
      · rw [hbf] at hb; rw [hb] at ho2; cases ho2
    have hres : HH.calculate_happy_hour_discount p wd t q c hhs = ⟨0, p.price, 0, none⟩ := by
      simp only [HH.calculate_happy_hour_discount, hb]
    refine ⟨?_, ?_, fun _ => hres⟩
    · intro hh hm he
      have := h3 hh hm he
      rw [← hbf] at this
      rw [hfst] at this
      simp [hres]
      exact this
    · intro hpos
      rw [hres] at hpos
      norm_num at hpos
  · -- winner hh0
    have hres : HH.calculate_happy_hour_discount p wd t q c hhs =
        ⟨(HH.bestFold p wd t c hhs).1, p.price - (HH.bestFold p wd t c hhs).1,
          (HH.bestFold p wd t c hhs).1 * (q : ℚ), some hh0.id⟩ := by
      simp only [HH.calculate_happy_hour_discount, hb]
    refine ⟨?_, ?_, ?_⟩
    · intro hh hm he
      have := h3 hh hm he
      rw [← hbf] at this
      simp [hres]
      exact this
    · intro hpos
      rcases h4 with ⟨he, ho⟩ | ⟨hh2, hm2, he2, hd2, ho2, hlt2⟩
      · rw [hbf] at hb; rw [hb] at ho; cases ho
      · rw [← hbf] at hd2 ho2 hlt2
        rw [hb] at ho2
        have : hh2 = hh0 := (Option.some.inj ho2).symm
        subst this
        exact ⟨hh2, hm2, he2, by simp [hres, hd2], by simp [hres], by simp [hres, ← hd2]⟩
    · intro hall
      exfalso
      rcases h4 with ⟨_, ho⟩ | ⟨hh2, hm2, he2, hd2, _, hlt2⟩
      · rw [hbf] at hb; rw [hb] at ho; cases ho
      · have := hall hh2 hm2 he2
        rw [← hbf] at hd2 hlt2
        rw [hd2] at this
        exact absurd (lt_of_lt_of_le hlt2 this) (lt_irrefl 0)

/-- C4: in one mix-match resolution, the units consumed from any product id
by non-stackable deals total at most that cart line's quantity; a stackable
deal leaves the shared pool unchanged, while a non-stackable deal's pool is
exactly the old pool with its consumption written back. -/
theorem c4_nonstackable_consumption (products : List ProductRec)
    (items : List MM.Item) (now : Int) (deals : List MM.Deal) (x : Int)
    (hq : 0 ≤ (dictGet? x (MM.mkItemDict MM.Item.quantity items)).getD 0) :
    (0 ≤ MM.runConsumedNS products (MM.mkItemDict MM.Item.unit_price items) x
        (MM.mkItemDict MM.Item.quantity items) (deals.filter (MM.is_deal_active now)) ∧
      MM.runConsumedNS products (MM.mkItemDict MM.Item.unit_price items) x
        (MM.mkItemDict MM.Item.quantity items) (deals.filter (MM.is_deal_active now)) ≤
        (dictGet? x (MM.mkItemDict MM.Item.quantity items)).getD 0) ∧
    (∀ (st : MM.St) (d : MM.Deal), d.stackable = true →
      (MM.dealStep products (MM.mkItemDict MM.Item.unit_price items) st d).pool = st.pool) ∧
    (∀ (st : MM.St) (d : MM.Deal), d.stackable = false →
      (MM.dealStep products (MM.mkItemDict MM.Item.unit_price items) st d).pool =
        MM.writeTakes st.pool (MM.dealTakes products
          (MM.mkItemDict MM.Item.unit_price items) st.pool d)) := by
  refine ⟨?_, ?_, ?_⟩
  · exact runConsumedNS_le products (MM.mkItemDict MM.Item.unit_price items) x
      (deals.filter (MM.is_deal_active now)) (MM.mkItemDict MM.Item.quantity items)
      (nodupKeys_mkItemDict MM.Item.quantity items) hq
  · intro st d hd
    rw [dealStep_pool]
    simp [MM.poolStep, hd]
  · intro st d hd
    rw [dealStep_pool]
    simp [MM.poolStep, hd]

/-- C4, witness: on the six-wine cart with the non-stackable Mix 6 Wines
deal, the non-stackable consumption of product 1 stays within its quantity
of six. -/
theorem c4_witness :
    MM.runConsumedNS [Fix.wine] (MM.mkItemDict MM.Item.unit_price Fix.cart6) 1
        (MM.mkItemDict MM.Item.quantity Fix.cart6)
        ([Fix.deal6].filter (MM.is_deal_active 0)) ≤
      (dictGet? 1 (MM.mkItemDict MM.Item.quantity Fix.cart6)).getD 0 :=
  (c4_nonstackable_consumption [Fix.wine] Fix.cart6 0 [Fix.deal6] 1 (by decide)).1.2

/-- C5, counterexample: a deal whose `max_applications` cap is set to `0`
(one unit required) is not clamped by the set cap on a one-unit cart: the
code treats the zero cap as unset, applies the deal once and grants a
discount, where clamping `timesApplicable` to the set cap `0` would have
produced no application. -/
theorem c5_counterexample :
    Fix.dealCap0.max_applications = some 0 ∧
    (MM.calculate_discounts [Fix.wine] 0 [Fix.dealCap0] Fix.cart1).applicable_deals.length = 1 ∧
    (MM.calculate_discounts [Fix.wine] 0 [Fix.dealCap0] Fix.cart1).total_discount = 1 := by
  have hfd : Int.fdiv (1 : ℤ) 1 = 1 := by decide
  refine ⟨rfl, ?_, ?_⟩ <;>
  · norm_num [MM.calculate_discounts, MM.dealStep, MM.is_deal_active, MM.qualifyingItems,
      MM.mkItemDict, MM.product_qualifies, MM.mmTimes, MM.consume, MM.usedOf,
      MM.consumedSubtotal, MM.dealDiscount, MM.writeTakes, dictInsert, dictGet?, findProduct,
      truthyInt, truthyList, truthyStr, truthyRat, Fix.wine, Fix.dealCap0, Fix.cart1,
      List.filter, List.foldl, List.filterMap, List.isEmpty, hfd]

/-- C5 (amended): against the qualifying pool of a deal,
`timesApplicable` is the floor quotient of the qualifying quantity by
`quantity_required`, clamped to `max_applications` only when that cap is
set to a nonzero value (a cap of zero is ignored); when it is not positive
the deal changes nothing, and when it is positive the consumption loop
takes exactly `quantity_required × timesApplicable` units; in particular
the six-required Mix 6 Wines deal fires exactly once, consuming six units,
on a cart of exactly six qualifying units. -/
theorem c5_allocation (products : List ProductRec) (prices : List (Int × ℚ))
    (st : MM.St) (d : MM.Deal) (hq : 0 < d.quantity_required) :
    (d.max_applications = none →
      MM.mmTimes d (((MM.qualifyingItems products prices d st.pool).map MM.QEntry.rem).sum) =
        Int.fdiv (((MM.qualifyingItems products prices d st.pool).map MM.QEntry.rem).sum)
          d.quantity_required) ∧
    (∀ m : Int, d.max_applications = some m → m ≠ 0 →
      MM.mmTimes d (((MM.qualifyingItems products prices d st.pool).map MM.QEntry.rem).sum) =
        min (Int.fdiv (((MM.qualifyingItems products prices d st.pool).map MM.QEntry.rem).sum)
          d.quantity_required) m) ∧
    (d.max_applications = some 0 →
      MM.mmTimes d (((MM.qualifyingItems products prices d st.pool).map MM.QEntry.rem).sum) =
        Int.fdiv (((MM.qualifyingItems products prices d st.pool).map MM.QEntry.rem).sum)
          d.quantity_required) ∧
    (MM.mmTimes d (((MM.qualifyingItems products prices d st.pool).map MM.QEntry.rem).sum) ≤ 0 →
      MM.dealStep products prices st d = st) ∧
    (0 < MM.mmTimes d (((MM.qualifyingItems products prices d st.pool).map MM.QEntry.rem).sum) →
      MM.usedOf (MM.consume
        (d.quantity_required *
          MM.mmTimes d (((MM.qualifyingItems products prices d st.pool).map MM.QEntry.rem).sum))
        (MM.qualifyingItems products prices d st.pool)) =
      d.quantity_required *
        MM.mmTimes d (((MM.qualifyingItems products prices d st.pool).map MM.QEntry.rem).sum)) ∧
    ((MM.calculate_discounts [Fix.wine] 0 [Fix.deal6] Fix.cart6).applicable_deals.map
      (fun a => (a.deal_id, a.quantity_used))) = [(1, 6)] := by
  refine ⟨?_, ?_, ?_, ?_, ?_, ?_⟩
  · intro hnone
    simp [MM.mmTimes, hnone, truthyInt]
  · intro m hm hm0
    simp [MM.mmTimes, hm, truthyInt, hm0]
  · intro h0
    simp [MM.mmTimes, h0, truthyInt]
  · intro ht
    simp only [MM.dealStep]
    by_cases he : (MM.qualifyingItems products prices d st.pool).isEmpty = true
    · simp only [if_pos he]
    · simp only [if_neg he]
      rw [if_pos ht]
  · intro ht
    have hrem : ∀ q2 ∈ MM.qualifyingItems products prices d st.pool, 0 ≤ q2.rem :=
      fun q2 hq2 => le_of_lt (qualifying_mem products prices d st.pool q2 hq2).1
    have htle : MM.mmTimes d (((MM.qualifyingItems products prices d st.pool).map
        MM.QEntry.rem).sum) ≤
        Int.fdiv (((MM.qualifyingItems products prices d st.pool).map MM.QEntry.rem).sum)
          d.quantity_required := by
      simp only [MM.mmTimes]
      split
      · exact min_le_left _ _
      · exact le_rfl
    have hmul := mul_le_of_le_fdiv
      (((MM.qualifyingItems products prices d st.pool).map MM.QEntry.rem).sum)
      d.quantity_required _ hq htle
    rw [consume_used _ _ (by positivity) hrem]
    exact min_eq_left hmul
  · have hfd : Int.fdiv (6 : ℤ) 6 = 1 := by decide
    norm_num [MM.calculate_discounts, MM.dealStep, MM.is_deal_active, MM.qualifyingItems,
      MM.mkItemDict, MM.product_qualifies, MM.mmTimes, MM.consume, MM.usedOf,
      MM.consumedSubtotal, MM.dealDiscount, MM.writeTakes, dictInsert, dictGet?, findProduct,
      truthyInt, truthyList, truthyStr, truthyRat, Fix.wine, Fix.deal6, Fix.cart6,
      List.filter, List.foldl, List.filterMap, List.isEmpty, hfd]

/-- C5, witness: the allocation facts instantiated on the six-wine cart and
the Mix 6 Wines deal. -/
theorem c5_witness :
    (MM.calculate_discounts [Fix.wine] 0 [Fix.deal6] Fix.cart6).applicable_deals.map
      (fun a => (a.deal_id, a.quantity_used)) = [(1, 6)] :=
  (c5_allocation [Fix.wine] (MM.mkItemDict MM.Item.unit_price Fix.cart6)
    ⟨MM.mkItemDict MM.Item.quantity Fix.cart6, [], 0⟩ Fix.deal6 (by decide)).2.2.2.2.2

/-- C6: volume-tier selection picks the tier with the largest `min_qty`
not exceeding the requested quantity (its `min_qty` dominates every other
met threshold), no tier applies when every threshold exceeds the quantity,
the selected tier's percent is taken off the full consumed subtotal of a
fresh price, and on tiers of 6 at 10 percent and 12 at 15 percent a
quantity of 11 selects the 10 percent tier. -/
theorem c6_tier_selection :
    (∀ (ts : List PR.Tier) (q : Int) (t : PR.Tier), PR.selectTier ts q = some t →
      t ∈ ts ∧ PR.tierKey t ≤ q ∧
        ∀ u ∈ ts, PR.tierKey u ≤ q → PR.tierKey u ≤ PR.tierKey t) ∧
    (∀ (ts : List PR.Tier) (q : Int), PR.selectTier ts q = none →
      ∀ u ∈ ts, q < PR.tierKey u) ∧
    (∀ (now : Int) (base : ℚ) (qty : Int) (ct : Option String)
        (vd : PR.VolumeDiscount) (t : PR.Tier), PR.selectTier vd.tiers qty = some t →
      (PR.calculate_price now base qty ct [vd] []).discounts_applied =
        [⟨vd.name, (base * (qty : ℚ)) * (t.discount_percent.getD 0 / 100)⟩] ∧
      (PR.calculate_price now base qty ct [vd] []).final_price =
        max 0 ((base * (qty : ℚ)) - (base * (qty : ℚ)) * (t.discount_percent.getD 0 / 100))) ∧
    PR.selectTier [Fix.tier6, Fix.tier12] 11 = some Fix.tier6 := by
  refine ⟨selectTier_some, selectTier_none, ?_, ?_⟩
  · intro now base qty ct vd t h
    constructor
    · simp [PR.calculate_price, PR.vdStep, h, PR.applyRules]
    · simp [PR.calculate_price, PR.vdStep, h, PR.applyRules]
  · decide

/-- C7: across both code paths the happy-hour gate holds exactly when the
weekday is enabled and the time of day lies in the configured window, where
a window whose start exceeds its end wraps midnight — then the rule is
active exactly when the time is at or after the start or at or before the
end, endpoints inclusive in every case; and a rule that survives the
discount loop's guards necessarily passed both gates. -/
theorem c7_time_window (hh : HH.HappyHour) (wd t : Nat) :
    ((HH.is_day_active hh wd && HH.timeWindowOk hh.start_time hh.end_time t) = true ↔
      (HH.is_day_active hh wd = true ∧
        (if hh.end_time < hh.start_time
         then hh.start_time ≤ t ∨ t ≤ hh.end_time
         else hh.start_time ≤ t ∧ t ≤ hh.end_time))) ∧
    (∀ (p : ProductRec) (c : Bool), HH.hhSkipped p wd t c hh = false →
      HH.is_day_active hh wd = true ∧
        HH.timeWindowOk hh.start_time hh.end_time t = true) := by
  constructor
  · by_cases hw : hh.start_time ≤ hh.end_time
    · have hw2 : ¬hh.end_time < hh.start_time := not_lt.2 hw
      simp [HH.timeWindowOk, hw, hw2]
    · have hw2 : hh.end_time < hh.start_time := lt_of_not_le hw
      simp [HH.timeWindowOk, hw, hw2]
  · intro p c h
    simp only [HH.hhSkipped, Bool.or_eq_false_iff] at h
    exact ⟨by simpa using h.1.1.1.1, by simpa using h.1.1.1.2⟩

/-- C8, counterexample: two equal-priority deals handed over in
later-created-first order (a valid priority-descending query result, since
the tie leaves their relative order unconstrained) are processed in the
given order: the later-created deal 1 is applied before the earlier-created
deal 2, where a createdAt-ascending tie-break would process deal 2 first. -/
theorem c8_counterexample :
    Fix.dealLate.priority = Fix.dealEarly.priority ∧
    Fix.dealEarly.created_at < Fix.dealLate.created_at ∧
    List.Sorted (fun a b : MM.Deal => b.priority ≤ a.priority)
      [Fix.dealLate, Fix.dealEarly] ∧
    ((MM.calculate_discounts [Fix.wine] 0 [Fix.dealLate, Fix.dealEarly]
      Fix.cart1).applicable_deals.map MM.Applied.deal_id) = [1, 2] := by
  have hfd : Int.fdiv (1 : ℤ) 1 = 1 := by decide
  refine ⟨rfl, by decide, by decide, ?_⟩
  norm_num [MM.calculate_discounts, MM.dealStep, MM.is_deal_active, MM.qualifyingItems,
    MM.mkItemDict, MM.product_qualifies, MM.mmTimes, MM.consume, MM.usedOf,
    MM.consumedSubtotal, MM.dealDiscount, MM.writeTakes, dictInsert, dictGet?, findProduct,
    truthyInt, truthyList, truthyStr, truthyRat, Fix.wine, Fix.dealLate, Fix.dealEarly,
    Fix.cart1, List.filter, List.foldl, List.filterMap, List.isEmpty, hfd]

/-- C8 (amended): deals are processed in the order of the
priority-descending query result — the recorded applications follow that
order, so the applied deal ids form a sublist of the snapshot's ids — and
the code applies no createdAt tie-break of its own. -/
theorem c8_processing_order (products : List ProductRec) (now : Int)
    (items : List MM.Item) (deals : List MM.Deal)
    (hs : List.Sorted (fun a b : MM.Deal => b.priority ≤ a.priority) deals) :
    ((MM.calculate_discounts products now deals items).applicable_deals.map
      MM.Applied.deal_id).Sublist (deals.map MM.Deal.id) := by
  obtain ⟨ap, he, hsub⟩ := foldl_dealStep_applied products
    (MM.mkItemDict MM.Item.unit_price items) (deals.filter (MM.is_deal_active now))
    ⟨MM.mkItemDict MM.Item.quantity items, [], 0⟩
  have happ : (MM.calculate_discounts products now deals items).applicable_deals = ap := by
    simp only [MM.calculate_discounts]
    rw [he]
    simp
  rw [happ]
  exact hsub.trans (List.Sublist.map MM.Deal.id (List.filter_sublist deals))

/-- C8, witness: the sublist fact instantiated on the two tied deals. -/
theorem c8_witness :
    ((MM.calculate_discounts [Fix.wine] 0 [Fix.dealLate, Fix.dealEarly]
      Fix.cart1).applicable_deals.map MM.Applied.deal_id).Sublist
      ([Fix.dealLate, Fix.dealEarly].map MM.Deal.id) :=
  c8_processing_order [Fix.wine] 0 Fix.cart1 [Fix.dealLate, Fix.dealEarly] (by decide)

/-- C9, counterexample: a cart carrying a negative-quantity line is not
rejected — no validation error exists — and rule processing is not aborted:
the valid six-wine line still earns one application and a 6.00 discount. -/
theorem c9_counterexample :
    (∃ it ∈ Fix.cartBad, it.quantity < 0) ∧
    (MM.calculate_discounts [Fix.wine, Fix.wine2] 0 [Fix.deal6]
      Fix.cartBad).applicable_deals.length = 1 ∧
    (MM.calculate_discounts [Fix.wine, Fix.wine2] 0 [Fix.deal6]
      Fix.cartBad).total_discount = 6 := by
  have hfd : Int.fdiv (6 : ℤ) 6 = 1 := by decide
  refine ⟨⟨⟨2, -1, 10⟩, by decide, by decide⟩, ?_, ?_⟩ <;>
  · norm_num [MM.calculate_discounts, MM.dealStep, MM.is_deal_active, MM.qualifyingItems,
      MM.mkItemDict, MM.product_qualifies, MM.mmTimes, MM.consume, MM.usedOf,
      MM.consumedSubtotal, MM.dealDiscount, MM.writeTakes, dictInsert, dictGet?, findProduct,
      truthyInt, truthyList, truthyStr, truthyRat, Fix.wine, Fix.wine2, Fix.deal6, Fix.cartBad,
      List.filter, List.foldl, List.filterMap, List.isEmpty, hfd]

/-- C9 (amended): the mix-match calculator validates nothing; a cart whose
lines all have non-positive quantity — the empty cart included — flows
through rule processing and produces the normal zero-discount response with
no applications, because such lines never qualify for any deal. -/
theorem c9_no_validation (products : List ProductRec) (now : Int)
    (deals : List MM.Deal) (items : List MM.Item)
    (h : ∀ it ∈ items, it.quantity ≤ 0) :
    MM.calculate_discounts products now deals items = ⟨[], 0⟩ := by
  have hpool : ∀ e ∈ MM.mkItemDict MM.Item.quantity items, e.2 ≤ 0 := by
    intro e he
    rcases mem_mkItemDict MM.Item.quantity items e he with ⟨it, hit, he2⟩
    rw [he2]
    exact h it hit
  have hfold := foldl_dealStep_of_nonpos products (MM.mkItemDict MM.Item.unit_price items)
    (deals.filter (MM.is_deal_active now))
    ⟨MM.mkItemDict MM.Item.quantity items, [], 0⟩ hpool
  simp only [MM.calculate_discounts, hfold]

/-- C9, witness: a one-line cart of zero quantity yields the zero response. -/
theorem c9_witness :
    MM.calculate_discounts [Fix.wine] 0 [Fix.deal6] [⟨1, 0, 10⟩] = ⟨[], 0⟩ :=
  c9_no_validation [Fix.wine] 0 [Fix.deal6] [⟨1, 0, 10⟩] (by decide)

/-- Any promotion whose type is neither `percentage` nor `fixed_amount` —
`buy_x_get_y` in particular — earns a zero discount under every scope. -/
theorem promoDiscount_bxgy (products : List ProductRec) (items : List Promo.Item)
    (subtotal : ℚ) (p : Promo.Promotion) (ht : p.promo_type = "buy_x_get_y") :
    Promo.promoDiscount products items subtotal p = 0 := by
  have hid : ∀ amount, Promo.itemDiscount p amount = 0 := by
    intro amount
    simp [Promo.itemDiscount, ht]
  by_cases h1 : p.scope = "all"
  · simp [Promo.promoDiscount, h1, hid]
  · by_cases h2 : p.scope = "category"
    · simp only [Promo.promoDiscount, h1, if_false, h2, if_true]
      apply List.sum_eq_zero
      intro x hx
      rcases List.mem_map.1 hx with ⟨item, _, he⟩
      rw [← he]
      cases hf : findProduct products item.product_id
      · simp
      · simp [hid]
    · by_cases h3 : p.scope = "product"
      · simp only [Promo.promoDiscount, h1, if_false, h2, h3, if_true]
        apply List.sum_eq_zero
        intro x hx
        rcases List.mem_map.1 hx with ⟨item, _, he⟩
        rw [← he]
        split <;> simp [hid]
      · simp [Promo.promoDiscount, h1, h2, h3]

/-- C10: a `buy_x_get_y` promotion can be created — creation rejects it
unless buy and get quantities are present (truthy) and accepts a storewide
one that has them — but the discount calculation knows only `percentage`
and `fixed_amount`, so a `buy_x_get_y` promotion always contributes a zero
discount, and every entry of `applied_promotions` stems from a promotion of
some other type. -/
theorem c10_buy_x_get_y :
    (∀ pc : Promo.PromotionCreate, Promo.create_promotion pc = .created →
      pc.promo_type = "buy_x_get_y" →
      truthyInt pc.buy_quantity = true ∧ truthyInt pc.get_quantity = true) ∧
    (∀ pc : Promo.PromotionCreate, pc.scope = "all" →
      truthyInt pc.buy_quantity = true → truthyInt pc.get_quantity = true →
      Promo.create_promotion pc = .created) ∧
    (∀ (products : List ProductRec) (items : List Promo.Item) (subtotal : ℚ)
        (p : Promo.Promotion), p.promo_type = "buy_x_get_y" →
      Promo.promoDiscount products items subtotal p = 0) ∧
    (∀ (products : List ProductRec) (promos : List Promo.Promotion)
        (items : List Promo.Item),
      ∀ a ∈ (Promo.calculate_discounts products promos items).applied_promotions,
        ∃ p ∈ promos, p.promo_type ≠ "buy_x_get_y" ∧
          a = ⟨p.id, p.name,
            Promo.promoDiscount products items (Promo.subtotalOf items) p⟩) := by
  refine ⟨?_, ?_, promoDiscount_bxgy, ?_⟩
  · intro pc hc ht
    simp only [Promo.create_promotion] at hc
    split at hc
    · exact Promo.CreateOutcome.noConfusion hc
    · split at hc
      · exact Promo.CreateOutcome.noConfusion hc
      · split at hc
        · exact Promo.CreateOutcome.noConfusion hc
        · rename_i h3
          simp [ht] at h3
          exact ⟨h3.1, h3.2⟩
  · intro pc hs hb hg
    simp [Promo.create_promotion, hs, hb, hg]
  · intro products promos items a ha
    have hp := promoFold_provenance products items (Promo.subtotalOf items) promos (0, []) a ha
    rcases hp with h | ⟨p, hm, hd, he⟩
    · simp at h
    · refine ⟨p, hm, ?_, he⟩
      intro ht
      rw [promoDiscount_bxgy products items (Promo.subtotalOf items) p ht] at hd
      exact absurd hd (lt_irrefl 0)
